import Mathlib

/-!
Verification of the filename codec and the surrounding workflows of a small
invoice-processing web application (single source file `app.py`).

Strings are modelled as `List Char`, mirroring Python string semantics:
`str.split(sep, 1)` becomes `splitFirst`, `str.replace(c, '')` becomes a
filter, `str.strip()` becomes `pyStrip`, slicing becomes `pySlice`, and
`os.path.splitext` becomes `splitext`.
-/

/-- Characters removed by Python `str.strip()` (ASCII whitespace). -/
def isSpaceChar (c : Char) : Bool :=
  c == ' ' || c == '\t' || c == '\n' || c == '\r' || c == '\x0b' || c == '\x0c'

/-- Model of Python `str.strip()`: drop whitespace from both ends. -/
def pyStrip (l : List Char) : List Char :=
  ((l.dropWhile isSpaceChar).reverse.dropWhile isSpaceChar).reverse

/-- `isPre pat l` holds when `pat` occurs at the very start of `l`. -/
def isPre : List Char → List Char → Bool
  | [], _ => true
  | _ :: _, [] => false
  | a :: as, b :: bs => a == b && isPre as bs

/-- Model of Python `s.split(sep, 1)` when it yields two parts: split at the
first occurrence of `sep`; `none` when `sep` does not occur (in the source
this case raises and is caught). -/
def splitFirst (sep : List Char) : List Char → Option (List Char × List Char)
  | [] => none
  | c :: rest =>
    if isPre sep (c :: rest) = true then some ([], (c :: rest).drop sep.length)
    else
      match splitFirst sep rest with
      | some p => some (c :: p.1, p.2)
      | none => none

/-- `hasSub pat l`: `pat` occurs somewhere in `l` (Python `pat in l`). -/
def hasSub (pat : List Char) : List Char → Bool
  | [] => isPre pat []
  | c :: rest => isPre pat (c :: rest) || hasSub pat rest

/-- Model of Python `str.endswith`. -/
def endsWith (suf l : List Char) : Bool := isPre suf.reverse l.reverse

/-- Model of Python slicing `l[a:b]` for `0 ≤ a ≤ b` (clamping, never raises). -/
def pySlice (l : List Char) (a b : Nat) : List Char := (l.take b).drop a

/-- The reserved characters removed during encoding (`invalid_chars`,
app.py lines 205 and 255). -/
def invalidChars : List Char := ['/', '\\', ':', '*', '?', '"', '<', '>', '|']

/-- Python `s.replace(c, '')` for a single character: drop every occurrence. -/
def removeChar (c : Char) (l : List Char) : List Char := l.filter (fun x => x != c)

/-- The loop `for char in cs: s = s.replace(char, '')`. -/
def sanAux (cs : List Char) (l : List Char) : List Char :=
  match cs with
  | [] => l
  | c :: cs' => sanAux cs' (removeChar c l)

/-- Sanitization sweep of app.py lines 205-206 / 255-256. -/
def sanitize (l : List Char) : List Char := sanAux invalidChars l

/-- The delimiter of the first decode split, `" ("` (app.py line 116). -/
def oparenSep : List Char := [' ', '(']

/-- The delimiter of the second decode split, `"), ("` (app.py line 120). -/
def cparenSep : List Char := [')', ',', ' ', '(']

/-- The sequence `", ("`, named in the spec as excluded from valid fields. -/
def commaParenSep : List Char := [',', ' ', '(']

/-- The literal suffix `", E F ZAP"` stripped during decode (app.py line 112). -/
def suffixTag : List Char := [',', ' ', 'E', ' ', 'F', ' ', 'Z', 'A', 'P']

/-- The trailing template literal `"), E F ZAP"` of the encoded stem. -/
def closeTag : List Char := ')' :: suffixTag

/-- `closeTag` without its final `'P'`. -/
def closeTagFront : List Char := [')', ',', ' ', 'E', ' ', 'F', ' ', 'Z', 'A']

/-- The template of app.py line 203 / 253:
`f"{date_str} ({supplier}), ({description}), E F ZAP"`. -/
def composeStem (dstr s desc : List Char) : List Char :=
  dstr ++ (oparenSep ++ (s ++ (cparenSep ++ (desc ++ closeTag))))

/-- Python `s.replace('-', '')` (app.py lines 196 and 252). -/
def dropDashes (l : List Char) : List Char := l.filter (fun c => c != '-')

/-- Encode: the stem computation of app.py lines 196 and 203-208 (identical
in lines 252-259): `date_str = issue_date.replace('-','')[2:]`, compose the
template, remove the reserved characters, strip the result.  The caller's
field normalization (`.strip()` on the extracted supplier/description,
lines 197-198) is modelled separately in `uploadStem`. -/
def encodeStem (issue_date supplier description : List Char) : List Char :=
  pyStrip (sanitize (composeStem ((dropDashes issue_date).drop 2) supplier description))

/-- Result record of `parse_filename` (app.py lines 124 and 127). -/
structure ParsedName where
  date : List Char
  supplier : List Char
  description : List Char
deriving DecidableEq, Repr

/-- The fallback string `"N/A"` (app.py line 127). -/
def naStr : List Char := ['N', '/', 'A']

/-- The all-fallback record returned on a decode failure (app.py line 127). -/
def naResult : ParsedName := ⟨naStr, naStr, naStr⟩

/-- The date re-expansion of app.py line 123:
`f"20{date_str[0:2]}-{date_str[2:4]}-{date_str[4:6]}"`. -/
def mkDate (ds : List Char) : List Char :=
  '2' :: '0' :: (pySlice ds 0 2 ++ ('-' :: (pySlice ds 2 4 ++ ('-' :: pySlice ds 4 6))))

/-- Suffix stripping of app.py lines 112-113: remove the trailing
`", E F ZAP"` when present. -/
def stripTag (stem : List Char) : List Char :=
  if endsWith suffixTag stem = true then stem.take (stem.length - suffixTag.length)
  else stem

/-- Decode: app.py lines 112-127, the body of `parse_filename` after the
extension split.  Both `split` calls fail exactly when their delimiter is
absent; any such failure is caught and mapped to `naResult`.  Slicing in
`mkDate` and the trailing `[:-1]` never raise. -/
def decodeStem (stem : List Char) : ParsedName :=
  match splitFirst oparenSep (stripTag stem) with
  | none => naResult
  | some p1 =>
    match splitFirst cparenSep p1.2 with
    | none => naResult
    | some p2 => ⟨mkDate p1.1, p2.1, p2.2.dropLast⟩

/-- True exactly when some decode step fails to find its delimiter. -/
def decodeDelimMissing (stem : List Char) : Bool :=
  match splitFirst oparenSep (stripTag stem) with
  | none => true
  | some p1 => (splitFirst cparenSep p1.2).isNone

/-- Index of the last `'.'` in a list, if any (Python `rfind('.')`). -/
def lastDotIdx : List Char → Option Nat
  | [] => none
  | c :: rest =>
    match lastDotIdx rest with
    | some i => some (i + 1)
    | none => if c = '.' then some 0 else none

/-- Model of `os.path.splitext` on a bare filename (no path separators):
split at the last dot, provided some earlier character is not a dot. -/
def splitext (l : List Char) : List Char × List Char :=
  match lastDotIdx l with
  | none => (l, [])
  | some d => if (l.take d).any (fun c => c != '.') then (l.take d, l.drop d) else (l, [])

/-- `parse_filename` (app.py lines 110-127): split off the extension, then
decode the stem. -/
def parse_filename (filename : List Char) : ParsedName :=
  decodeStem (splitext filename).1

/-- Well-formed `YYYY-MM-DD` shape (the claims' notion of a valid date
string): ten characters, digits in the year/month/day positions, dashes at
positions 4 and 7. -/
def isYYYYMMDD (l : List Char) : Bool :=
  match l with
  | [a, b, c, d, e, f, g, h, i, j] =>
    a.isDigit && b.isDigit && c.isDigit && d.isDigit && (e == '-') &&
      f.isDigit && g.isDigit && (h == '-') && i.isDigit && j.isDigit
  | _ => false

/-- Default taken by `data.get('issue_date', '0000-00-00')` (app.py 196). -/
def defaultDate : List Char := ['0', '0', '0', '0', '-', '0', '0', '-', '0', '0']

/-- Default taken by `data.get('supplier_name', ...)` (app.py 197). -/
def defaultSupplier : List Char := ("Neznámý dodavatel").toList

/-- Default taken by `data.get('description', ...)` (app.py 198). -/
def defaultDescription : List Char := ("Neznámé zboží").toList

/-- The stem computed by the upload flow, app.py lines 196-208: each field is
read from the extracted data with a default for an absent key (`none`), the
supplier and description are stripped, and the stem is encoded. -/
def uploadStem (issue_date supplier description : Option (List Char)) : List Char :=
  encodeStem (issue_date.getD defaultDate)
    (pyStrip (supplier.getD defaultSupplier))
    (pyStrip (description.getD defaultDescription))

/-- Outcome of `get_image_base64` for one uploaded file: a usable image, a
falsy result (lines 186-189), or the `PopplerNotFound` exception raised at
line 58 and caught at lines 220-222. -/
inductive RasterResult where
  | imageOk
  | failed
  | popplerMissing
deriving DecidableEq, Repr

/-- What remains of one uploaded file after `upload_page` handles it
(app.py lines 184-226).  `tempRemoved` means the temporary upload is no
longer in the upload folder (deleted, or consumed by the final rename). -/
structure FileOutcome where
  tempRemoved : Bool
  processedCommitted : Bool
  previewCommitted : Bool
  sidecarCommitted : Bool
  errorReported : Bool
deriving DecidableEq, Repr

/-- One iteration of the upload loop, app.py lines 184-226, under the
assumption that the filesystem operations themselves succeed; the
collaborator outcomes (rasterizer, extractor, preview generator) are inputs.
Branches: a falsy raster result removes the temp file and continues
(lines 186-189); a `PopplerNotFound` exception is caught at lines 220-226,
which also removes the temp file; a falsy extraction result continues
WITHOUT removing the temp file (lines 192-194); otherwise the file is
committed (preview at 213, rename at 214, sidecar at 216), with a preview
failure being non-fatal. -/
def ingestOne (raster : RasterResult) (extractOk previewOk : Bool) : FileOutcome :=
  match raster with
  | .failed => ⟨true, false, false, false, true⟩
  | .popplerMissing => ⟨true, false, false, false, true⟩
  | .imageOk =>
    if extractOk then ⟨true, true, previewOk, true, false⟩
    else ⟨false, false, false, false, true⟩

/-- Which members of the artifact triple exist on disk for one invoice. -/
structure ArtifactState where
  docExists : Bool
  previewExists : Bool
  sidecarExists : Bool
deriving DecidableEq, Repr

/-- `delete_invoice` (app.py lines 233-240): remove the processed document,
then the preview, then the sidecar, inside one `try`; `os.remove` on a
missing file raises, the handler returns an error response.  The returned
Bool is `true` for the success response; the state records what remains. -/
def deleteInvoice (st : ArtifactState) : Bool × ArtifactState :=
  if st.docExists then
    if st.previewExists then
      if st.sidecarExists then (true, ⟨false, false, false⟩)
      else (false, ⟨false, false, st.sidecarExists⟩)
    else (false, ⟨false, st.previewExists, st.sidecarExists⟩)
  else (false, st)

/-- The new document filename computed by `edit_invoice_submit`
(app.py lines 252-259): re-encoded stem plus the extension of the old
filename. -/
def editNewFilename (filename issue_date supplier description : List Char) : List Char :=
  encodeStem issue_date supplier description ++ (splitext filename).2

/-- `new_base` of app.py line 262: the stem of the new filename. -/
def editNewBase (filename issue_date supplier description : List Char) : List Char :=
  (splitext (editNewFilename filename issue_date supplier description)).1

/-- The extension tails of the preview and sidecar artifact names. -/
def jpgTail : List Char := ['j', 'p', 'g']

/-- See `jpgTail`. -/
def jsonTail : List Char := ['j', 's', 'o', 'n']

/-- The three target names of the renames at app.py lines 265-267:
document, preview (`new_base + ".jpg"`), sidecar (`new_base + ".json"`). -/
def editRenamedArtifacts (filename issue_date supplier description : List Char) :
    List Char × List Char × List Char :=
  (editNewFilename filename issue_date supplier description,
   editNewBase filename issue_date supplier description ++ ('.' :: jpgTail),
   editNewBase filename issue_date supplier description ++ ('.' :: jsonTail))

/-! ### Helper lemmas about the string model -/

theorem isPre_self_append (p t : List Char) : isPre p (p ++ t) = true := by
  induction p with
  | nil => rfl
  | cons a as ih => simp [isPre, ih]

theorem isPre_append_of_le (p : List Char) :
    ∀ (l x : List Char), p.length ≤ l.length → isPre p (l ++ x) = isPre p l := by
  induction p with
  | nil => intro l x _; rfl
  | cons a as ih =>
    intro l x h
    cases l with
    | nil => simp at h
    | cons b bs =>
      have h' : as.length ≤ bs.length := by
        simp only [List.length_cons] at h
        omega
      simp only [List.cons_append, isPre, List.append_eq]
      rw [ih bs x h']

theorem splitFirst_boundary (sep pre post : List Char) (hsep : sep ≠ [])
    (h : ∀ i, i < pre.length → isPre sep ((pre ++ (sep ++ post)).drop i) = false) :
    splitFirst sep (pre ++ (sep ++ post)) = some (pre, post) := by
  induction pre with
  | nil =>
    simp only [List.nil_append]
    cases sep with
    | nil => exact absurd rfl hsep
    | cons a as =>
      simp only [List.cons_append, splitFirst]
      rw [if_pos]
      · simp only [List.length_cons, List.drop_succ_cons, List.append_eq]
        rw [List.drop_left as post]
      · have := isPre_self_append (a :: as) post
        simpa [List.cons_append] using this
  | cons c pre' ih =>
    have h0 : isPre sep (c :: (pre' ++ (sep ++ post))) = false := by
      have := h 0 (by simp)
      simpa [List.cons_append] using this
    simp only [List.cons_append, splitFirst]
    rw [if_neg (by simp [h0])]
    have hrec : splitFirst sep (pre' ++ (sep ++ post)) = some (pre', post) := by
      apply ih
      intro i hi
      have := h (i + 1) (by simp only [List.length_cons]; omega)
      simpa [List.cons_append, List.drop_succ_cons] using this
    simp only [List.append_eq]
    rw [hrec]

theorem hasSub_cons_false {pat : List Char} {c : Char} {l : List Char}
    (h : hasSub pat (c :: l) = false) :
    isPre pat (c :: l) = false ∧ hasSub pat l = false := by
  rw [hasSub] at h
  constructor
  · cases hp : isPre pat (c :: l)
    · rfl
    · rw [hp] at h; simp at h
  · cases hq : hasSub pat l
    · rfl
    · rw [hq] at h; simp at h

theorem no_cp_left (s : List Char) :
    ∀ (post : List Char), hasSub cparenSep s = false →
      ∀ i, i < s.length → isPre cparenSep ((s ++ (cparenSep ++ post)).drop i) = false := by
  induction s with
  | nil => intro post _ i hi; simp at hi
  | cons c s' ih =>
    intro post hs i hi
    have hd := hasSub_cons_false hs
    match i with
    | 0 =>
      simp only [List.drop_zero, List.cons_append]
      cases s' with
      | nil => simp [isPre, cparenSep]
      | cons b t1 =>
        cases t1 with
        | nil => simp [isPre, cparenSep]
        | cons b2 t2 =>
          cases t2 with
          | nil => simp [isPre, cparenSep]
          | cons b3 t3 =>
            have hlen : cparenSep.length ≤ (c :: b :: b2 :: b3 :: t3).length := by
              simp [cparenSep]
            have hre : (c :: (b :: b2 :: b3 :: t3 ++ (cparenSep ++ post)))
                = ((c :: b :: b2 :: b3 :: t3) ++ (cparenSep ++ post)) := by simp
            rw [hre, isPre_append_of_le _ _ _ hlen]
            exact hd.1
    | i' + 1 =>
      simp only [List.cons_append, List.drop_succ_cons]
      exact ih post hd.2 i' (by simpa using hi)

theorem digit_not_invalid {c : Char} (h : c.isDigit = true) : c ∉ invalidChars := by
  intro hm
  have hcases : c = '/' ∨ c = '\\' ∨ c = ':' ∨ c = '*' ∨ c = '?' ∨ c = '"' ∨
      c = '<' ∨ c = '>' ∨ c = '|' := by
    simpa [invalidChars, or_assoc] using hm
  rcases hcases with rfl | rfl | rfl | rfl | rfl | rfl | rfl | rfl | rfl <;>
    exact absurd h (by decide)

theorem digit_not_space {c : Char} (h : c.isDigit = true) : isSpaceChar c = false := by
  cases hc : isSpaceChar c
  · rfl
  · exfalso
    have hcases : c = ' ' ∨ c = '\t' ∨ c = '\n' ∨ c = '\r' ∨ c = '\x0b' ∨ c = '\x0c' := by
      simpa [isSpaceChar, or_assoc] using hc
    rcases hcases with rfl | rfl | rfl | rfl | rfl | rfl <;> exact absurd h (by decide)

theorem space_beq_digit {c : Char} (h : c.isDigit = true) : ((' ' : Char) == c) = false := by
  cases he : (' ' : Char) == c
  · rfl
  · have he' : (' ' : Char) = c := eq_of_beq he
    rw [← he'] at h
    exact absurd h (by decide)

theorem isPre_op_digit {c : Char} (h : c.isDigit = true) (l : List Char) :
    isPre oparenSep (c :: l) = false := by
  simp [oparenSep, isPre, space_beq_digit h]

theorem no_op_in_datestr {y1 y2 m1 m2 d1 d2 : Char}
    (h1 : y1.isDigit = true) (h2 : y2.isDigit = true) (h3 : m1.isDigit = true)
    (h4 : m2.isDigit = true) (h5 : d1.isDigit = true) (h6 : d2.isDigit = true)
    (R : List Char) :
    ∀ i, i < 6 → isPre oparenSep (([y1, y2, m1, m2, d1, d2] ++ R).drop i) = false := by
  intro i hi
  interval_cases i <;>
    simp only [List.cons_append, List.nil_append, List.drop_succ_cons, List.drop_zero] <;>
    first
      | exact isPre_op_digit h1 _
      | exact isPre_op_digit h2 _
      | exact isPre_op_digit h3 _
      | exact isPre_op_digit h4 _
      | exact isPre_op_digit h5 _
      | exact isPre_op_digit h6 _

theorem sanAux_append (cs : List Char) :
    ∀ a b : List Char, sanAux cs (a ++ b) = sanAux cs a ++ sanAux cs b := by
  induction cs with
  | nil => intro a b; rfl
  | cons c cs' ih =>
    intro a b
    simp only [sanAux, removeChar, List.filter_append]
    exact ih _ _

theorem sanAux_eq_self (cs : List Char) :
    ∀ l : List Char, (∀ x ∈ l, x ∉ cs) → sanAux cs l = l := by
  induction cs with
  | nil => intro l _; rfl
  | cons c cs' ih =>
    intro l h
    have h1 : removeChar c l = l := by
      apply List.filter_eq_self.mpr
      intro x hx
      have hx' := h x hx
      simp only [List.mem_cons, not_or] at hx'
      simp [hx'.1]
    rw [sanAux, h1]
    exact ih l (fun x hx => by
      have hx' := h x hx
      simp only [List.mem_cons, not_or] at hx'
      exact hx'.2)

theorem mem_sanAux (cs : List Char) :
    ∀ (l : List Char) (x : Char), x ∈ sanAux cs l → x ∈ l := by
  induction cs with
  | nil => intro l x h; exact h
  | cons c cs' ih =>
    intro l x h
    have h2 := ih _ _ h
    exact (List.mem_filter.mp h2).1

theorem not_mem_sanAux (cs : List Char) :
    ∀ (l : List Char) (x : Char), x ∈ cs → x ∉ sanAux cs l := by
  induction cs with
  | nil => intro l x h; simp at h
  | cons c cs' ih =>
    intro l x hx hmem
    rw [sanAux] at hmem
    rcases List.mem_cons.mp hx with rfl | hx'
    · have h2 := mem_sanAux cs' _ _ hmem
      have h3 := (List.mem_filter.mp h2).2
      simp at h3
    · exact ih _ _ hx' hmem

theorem sanitize_append (a b : List Char) : sanitize (a ++ b) = sanitize a ++ sanitize b :=
  sanAux_append invalidChars a b

theorem sanitize_eq_self {l : List Char} (h : ∀ x ∈ l, x ∉ invalidChars) :
    sanitize l = l :=
  sanAux_eq_self invalidChars l h

theorem dropWhile_append_singleton {p : Char} (hp : isSpaceChar p = false) :
    ∀ B : List Char,
      List.dropWhile isSpaceChar (B ++ [p]) = List.dropWhile isSpaceChar B ++ [p] := by
  intro B
  induction B with
  | nil => simp [List.dropWhile_cons, hp]
  | cons b B' ih =>
    cases hb : isSpaceChar b
    · simp [List.dropWhile_cons, hb]
    · simp [List.dropWhile_cons, hb, ih]

theorem pyStrip_concatP {p : Char} (hp : isSpaceChar p = false) (B : List Char) :
    pyStrip (B ++ [p]) = List.dropWhile isSpaceChar B ++ [p] := by
  unfold pyStrip
  rw [dropWhile_append_singleton hp]
  simp [List.reverse_append, List.dropWhile_cons, hp]

theorem mem_of_mem_dropWhile {p : Char → Bool} :
    ∀ (l : List Char) {x : Char}, x ∈ List.dropWhile p l → x ∈ l := by
  intro l
  induction l with
  | nil => intro x h; simp at h
  | cons c l' ih =>
    intro x h
    rw [List.dropWhile_cons] at h
    by_cases hc : p c = true
    · rw [if_pos hc] at h
      exact List.mem_cons_of_mem _ (ih h)
    · rw [if_neg hc] at h
      exact h

theorem mem_pyStrip {l : List Char} {x : Char} (h : x ∈ pyStrip l) : x ∈ l := by
  unfold pyStrip at h
  rw [List.mem_reverse] at h
  have h2 := mem_of_mem_dropWhile _ h
  rw [List.mem_reverse] at h2
  exact mem_of_mem_dropWhile _ h2

theorem dropLast_append_singleton (l : List Char) (a : Char) :
    (l ++ [a]).dropLast = l := by
  induction l with
  | nil => rfl
  | cons c l' ih =>
    cases l' with
    | nil => rfl
    | cons d l'' =>
      simp only [List.cons_append, List.dropLast_cons₂]
      simp only [List.cons_append] at ih
      rw [ih]

theorem stripTag_append (x : List Char) : stripTag (x ++ suffixTag) = x := by
  unfold stripTag
  rw [if_pos]
  · have hlen : (x ++ suffixTag).length - suffixTag.length = x.length := by
      simp [List.length_append]
    rw [hlen]
    exact List.take_left x suffixTag
  · unfold endsWith
    rw [List.reverse_append]
    exact isPre_self_append _ _

theorem noDot_lastDotIdx (l : List Char) (h : ∀ c ∈ l, c ≠ '.') :
    lastDotIdx l = none := by
  induction l with
  | nil => rfl
  | cons c l' ih =>
    simp only [lastDotIdx, ih (fun x hx => h x (List.mem_cons_of_mem _ hx))]
    simp [h c (List.mem_cons_self c l')]

theorem lastDotIdx_append_dot (tail : List Char) (ht : ∀ c ∈ tail, c ≠ '.') :
    ∀ b : List Char, lastDotIdx (b ++ ('.' :: tail)) = some b.length := by
  intro b
  induction b with
  | nil =>
    simp only [List.nil_append, lastDotIdx, noDot_lastDotIdx tail ht]
    simp
  | cons c b' ih =>
    simp only [List.cons_append, lastDotIdx, List.length_cons, List.append_eq]
    rw [ih]

theorem splitext_append_ext (b tail : List Char)
    (hb : ∃ c ∈ b, (c != '.') = true) (ht : ∀ c ∈ tail, c ≠ '.') :
    splitext (b ++ ('.' :: tail)) = (b, '.' :: tail) := by
  unfold splitext
  simp only [lastDotIdx_append_dot tail ht b]
  have hany : (List.take b.length (b ++ ('.' :: tail))).any (fun c => c != '.') = true := by
    rw [List.take_left]
    rw [List.any_eq_true]
    obtain ⟨c, hc, hcd⟩ := hb
    exact ⟨c, hc, hcd⟩
  rw [if_pos hany, List.take_left, List.drop_left]

theorem splitext_root_keeps_nondot (l : List Char)
    (h : ∃ c ∈ l, (c != '.') = true) :
    ∃ c ∈ (splitext l).1, (c != '.') = true := by
  unfold splitext
  cases hl : lastDotIdx l with
  | none => simp only []; exact h
  | some d =>
    simp only []
    by_cases hany : (List.take d l).any (fun c => c != '.') = true
    · rw [if_pos hany]
      rw [List.any_eq_true] at hany
      exact hany
    · rw [if_neg hany]
      exact h

theorem encodeStem_ends_P (d s desc : List Char) :
    ∃ w, encodeStem d s desc = w ++ ['P'] := by
  unfold encodeStem
  have hre : composeStem ((dropDashes d).drop 2) s desc
      = ((dropDashes d).drop 2
          ++ (oparenSep ++ (s ++ (cparenSep ++ (desc ++ closeTagFront))))) ++ ['P'] := by
    simp [composeStem, closeTag, closeTagFront, suffixTag, List.append_assoc]
  rw [hre, sanitize_append]
  rw [show sanitize ['P'] = ['P'] from by decide]
  rw [pyStrip_concatP (by decide)]
  exact ⟨_, rfl⟩

/-- Shared helper: whenever one of the two decode splits fails to find its
delimiter, `decodeStem` returns the all-`"N/A"` record. -/
theorem decode_na_of_delim_missing (stem : List Char)
    (h : decodeDelimMissing stem = true) : decodeStem stem = naResult := by
  unfold decodeDelimMissing at h
  unfold decodeStem
  cases h1 : splitFirst oparenSep (stripTag stem) with
  | none => rfl
  | some p1 =>
    simp only [h1] at h ⊢
    have h2 : splitFirst cparenSep p1.2 = none := Option.isNone_iff_eq_none.mp h
    simp only [h2]

/-- Shared helper: when both decode splits succeed, the resulting record is
never the fallback record, because its date field starts with `"20"`. -/
theorem decode_ne_na_of_delims (stem : List Char)
    (h : decodeDelimMissing stem = false) : decodeStem stem ≠ naResult := by
  unfold decodeDelimMissing at h
  unfold decodeStem
  cases h1 : splitFirst oparenSep (stripTag stem) with
  | none =>
    simp only [h1] at h
    exact absurd h (by decide)
  | some p1 =>
    simp only [h1] at h ⊢
    cases h2 : splitFirst cparenSep p1.2 with
    | none => simp [h2] at h
    | some p2 =>
      simp only [h2]
      intro hna
      have hdate : mkDate p1.1 = naStr := congrArg ParsedName.date hna
      simp [mkDate, naStr] at hdate

/-! ### Claim theorems -/

/-- C5: `Decode` applied to the exact stem
`"240307 (ACME s.r.o.), (Hosting), E F ZAP"` returns the triple
`("2024-03-07", "ACME s.r.o.", "Hosting")`. -/
theorem c5_decode_scenario :
    decodeStem (("240307 (ACME s.r.o.), (Hosting), E F ZAP").toList)
      = ⟨("2024-03-07").toList, ("ACME s.r.o.").toList, ("Hosting").toList⟩ := by
  decide

/-- C6: whenever a decode step fails to find its expected delimiter, `Decode`
returns `"N/A"` for every one of the three fields instead of raising. -/
theorem c6_delim_missing_na (stem : List Char)
    (h : decodeDelimMissing stem = true) : decodeStem stem = naResult :=
  decode_na_of_delim_missing stem h

theorem c6_delim_missing_na_witness :
    decodeDelimMissing (("garbage").toList) = true ∧
      decodeStem (("garbage").toList) = naResult :=
  ⟨by decide, c6_delim_missing_na (("garbage").toList) (by decide)⟩

/-- C3 counterexample: a stem that does not end with `", E F ZAP"` but still
contains both delimiters is parsed normally, not mapped to the `"N/A"`
fallback values, refuting the claim that every suffix-less stem decodes to
the fallback. -/
theorem c3_counterexample :
    endsWith suffixTag (("240307 (A), (B)").toList) = false ∧
    decodeStem (("240307 (A), (B)").toList) ≠ naResult ∧
    decodeStem (("240307 (A), (B)").toList)
      = ⟨("2024-03-07").toList, ("A").toList, ("B").toList⟩ := by
  decide

/-- C3 (amended): `Decode` on a stem not ending with `", E F ZAP"` never
throws (it is total); it returns the fallback `"N/A"` values exactly when a
required delimiter is missing, and otherwise parses the stem normally
without stripping a suffix. -/
theorem c3_no_suffix_fallback_iff (stem : List Char)
    (_h : endsWith suffixTag stem = false) :
    decodeStem stem = naResult ↔ decodeDelimMissing stem = true := by
  constructor
  · intro hna
    cases hdm : decodeDelimMissing stem with
    | true => rfl
    | false => exact absurd hna (decode_ne_na_of_delims stem hdm)
  · intro hdm
    exact decode_na_of_delim_missing stem hdm

theorem c3_no_suffix_fallback_iff_witness :
    endsWith suffixTag (("abc").toList) = false ∧
      (decodeStem (("abc").toList) = naResult ↔
        decodeDelimMissing (("abc").toList) = true) :=
  ⟨by decide, c3_no_suffix_fallback_iff (("abc").toList) (by decide)⟩

/-- C8: a delete request for which at least one member of the artifact
triple is missing reports failure, even if other members were removed. -/
theorem c8_delete_missing_reports_error (st : ArtifactState)
    (h : st.docExists = false ∨ st.previewExists = false ∨ st.sidecarExists = false) :
    (deleteInvoice st).1 = false := by
  obtain ⟨d, p, s⟩ := st
  cases d <;> cases p <;> cases s <;> simp_all [deleteInvoice]

theorem c8_delete_missing_reports_error_witness :
    (deleteInvoice ⟨true, true, false⟩).1 = false :=
  c8_delete_missing_reports_error ⟨true, true, false⟩ (Or.inr (Or.inr rfl))

/-- C9: delete removes document, then preview, then sidecar, stopping at the
first failure: when the document is missing nothing else is removed (the
state is unchanged) and an error is reported; when the document exists but
the preview is missing, the sidecar is untouched while the document is
already gone. -/
theorem c9_delete_order_stops_at_first_failure (st : ArtifactState) :
    (st.docExists = false →
      (deleteInvoice st).1 = false ∧ (deleteInvoice st).2 = st) ∧
    (st.docExists = true → st.previewExists = false →
      (deleteInvoice st).1 = false ∧ (deleteInvoice st).2.docExists = false ∧
      (deleteInvoice st).2.previewExists = st.previewExists ∧
      (deleteInvoice st).2.sidecarExists = st.sidecarExists) := by
  obtain ⟨d, p, s⟩ := st
  cases d <;> cases p <;> cases s <;> simp [deleteInvoice]

theorem c9_delete_order_stops_at_first_failure_witness :
    (deleteInvoice ⟨false, true, true⟩).1 = false ∧
      (deleteInvoice ⟨false, true, true⟩).2 = ⟨false, true, true⟩ :=
  (c9_delete_order_stops_at_first_failure ⟨false, true, true⟩).1 rfl

/-- C4 counterexample: for a file whose AI extraction returns no data, the
loop continues without deleting the temporary upload (app.py lines 192-194
have no `os.remove`), refuting the claim that every failed file has its
temporary file removed. -/
theorem c4_counterexample :
    (ingestOne RasterResult.imageOk false true).errorReported = true ∧
    (ingestOne RasterResult.imageOk false true).tempRemoved = false := by
  decide

/-- C4 (amended): under the model in which filesystem operations succeed,
every failed file commits no artifacts at all and reports an error, and the
temporary upload is removed in every failure case except the
extraction-failure branch, where it is left in the upload folder. -/
theorem c4_failure_no_commit (r : RasterResult) (e p : Bool)
    (h : ¬(r = RasterResult.imageOk ∧ e = true)) :
    (ingestOne r e p).processedCommitted = false ∧
    (ingestOne r e p).previewCommitted = false ∧
    (ingestOne r e p).sidecarCommitted = false ∧
    (ingestOne r e p).errorReported = true ∧
    ((ingestOne r e p).tempRemoved = false ↔ (r = RasterResult.imageOk ∧ e = false)) := by
  cases r <;> cases e <;> cases p <;> simp_all [ingestOne]

theorem c4_failure_no_commit_witness :
    (ingestOne RasterResult.failed true true).processedCommitted = false ∧
    (ingestOne RasterResult.failed true true).previewCommitted = false ∧
    (ingestOne RasterResult.failed true true).sidecarCommitted = false ∧
    (ingestOne RasterResult.failed true true).errorReported = true ∧
    ((ingestOne RasterResult.failed true true).tempRemoved = false ↔
      (RasterResult.failed = RasterResult.imageOk ∧ true = false)) :=
  c4_failure_no_commit RasterResult.failed true true (by decide)

/-- C7: the stem produced by `Encode` never contains a reserved filesystem
character, for any inputs whatsoever. -/
theorem c7_encode_no_reserved (d s desc : List Char) (c : Char)
    (hc : c ∈ invalidChars) : c ∉ encodeStem d s desc := by
  intro hmem
  unfold encodeStem at hmem
  have h1 := mem_pyStrip hmem
  exact not_mem_sanAux invalidChars _ c hc h1

theorem c7_encode_no_reserved_witness :
    '/' ∈ invalidChars ∧
      '/' ∉ encodeStem (("2024-03-07").toList) (("A/B").toList) (("C").toList) :=
  ⟨by decide,
   c7_encode_no_reserved (("2024-03-07").toList) (("A/B").toList) (("C").toList) '/'
     (by decide)⟩

/-- C1 counterexample: the date `"1999-03-07"` is a well-formed `YYYY-MM-DD`
string and the fields `"A"`, `"B"` satisfy every restriction of the claim,
yet decode of encode yields `"2099-03-07"`: the two-digit year embedding
plus the hardcoded `"20"` century loses every year outside 20YY. -/
theorem c1_counterexample :
    isYYYYMMDD (("1999-03-07").toList) = true ∧
    (∀ c ∈ ("A").toList, c ∉ invalidChars) ∧
    (∀ c ∈ ("B").toList, c ∉ invalidChars) ∧
    hasSub cparenSep (("A").toList) = false ∧
    hasSub commaParenSep (("A").toList) = false ∧
    hasSub cparenSep (("B").toList) = false ∧
    hasSub commaParenSep (("B").toList) = false ∧
    decodeStem (encodeStem (("1999-03-07").toList) (("A").toList) (("B").toList))
      ≠ ⟨("1999-03-07").toList, ("A").toList, ("B").toList⟩ ∧
    decodeStem (encodeStem (("1999-03-07").toList) (("A").toList) (("B").toList))
      = ⟨("2099-03-07").toList, ("A").toList, ("B").toList⟩ := by
  decide

/-- C1 (amended): for every date of the form `20YY-MM-DD` (all digit
positions digits) and all supplier/description fields that contain no
reserved character and no `", ("` or `"), ("` sequence, decoding the encoded
stem recovers the original triple exactly. -/
theorem c1_round_trip_20xx (y1 y2 m1 m2 d1 d2 : Char)
    (hy1 : y1.isDigit = true) (hy2 : y2.isDigit = true) (hm1 : m1.isDigit = true)
    (hm2 : m2.isDigit = true) (hd1 : d1.isDigit = true) (hd2 : d2.isDigit = true)
    (s desc : List Char)
    (hsClean : ∀ c ∈ s, c ∉ invalidChars)
    (hdClean : ∀ c ∈ desc, c ∉ invalidChars)
    (hsSep : hasSub cparenSep s = false)
    (_hsSep2 : hasSub commaParenSep s = false)
    (_hdSep : hasSub cparenSep desc = false)
    (_hdSep2 : hasSub commaParenSep desc = false) :
    decodeStem (encodeStem ['2', '0', y1, y2, '-', m1, m2, '-', d1, d2] s desc)
      = ⟨['2', '0', y1, y2, '-', m1, m2, '-', d1, d2], s, desc⟩ := by
  have hb1 : (y1 != '-') = true := by
    cases he : y1 == '-'
    · simp [bne, he]
    · rw [eq_of_beq he] at hy1; exact absurd hy1 (by decide)
  have hb2 : (y2 != '-') = true := by
    cases he : y2 == '-'
    · simp [bne, he]
    · rw [eq_of_beq he] at hy2; exact absurd hy2 (by decide)
  have hb3 : (m1 != '-') = true := by
    cases he : m1 == '-'
    · simp [bne, he]
    · rw [eq_of_beq he] at hm1; exact absurd hm1 (by decide)
  have hb4 : (m2 != '-') = true := by
    cases he : m2 == '-'
    · simp [bne, he]
    · rw [eq_of_beq he] at hm2; exact absurd hm2 (by decide)
  have hb5 : (d1 != '-') = true := by
    cases he : d1 == '-'
    · simp [bne, he]
    · rw [eq_of_beq he] at hd1; exact absurd hd1 (by decide)
  have hb6 : (d2 != '-') = true := by
    cases he : d2 == '-'
    · simp [bne, he]
    · rw [eq_of_beq he] at hd2; exact absurd hd2 (by decide)
  have hds : (dropDashes ['2', '0', y1, y2, '-', m1, m2, '-', d1, d2]).drop 2
      = [y1, y2, m1, m2, d1, d2] := by
    have hfil : dropDashes ['2', '0', y1, y2, '-', m1, m2, '-', d1, d2]
        = ['2', '0', y1, y2, m1, m2, d1, d2] := by
      simp [dropDashes, List.filter_cons, hb1, hb2, hb3, hb4, hb5, hb6]
    rw [hfil]
    rfl
  have hlit1 : ∀ x ∈ oparenSep, x ∉ invalidChars := by decide
  have hlit2 : ∀ x ∈ cparenSep, x ∉ invalidChars := by decide
  have hlit3 : ∀ x ∈ closeTag, x ∉ invalidChars := by decide
  have hclean : ∀ x ∈ composeStem [y1, y2, m1, m2, d1, d2] s desc, x ∉ invalidChars := by
    intro x hx
    simp only [composeStem, List.mem_append] at hx
    rcases hx with hx | hx | hx | hx | hx | hx
    · simp only [List.mem_cons, List.not_mem_nil, or_false] at hx
      rcases hx with rfl | rfl | rfl | rfl | rfl | rfl
      · exact digit_not_invalid hy1
      · exact digit_not_invalid hy2
      · exact digit_not_invalid hm1
      · exact digit_not_invalid hm2
      · exact digit_not_invalid hd1
      · exact digit_not_invalid hd2
    · exact hlit1 x hx
    · exact hsClean x hx
    · exact hlit2 x hx
    · exact hdClean x hx
    · exact hlit3 x hx
  have hsan : sanitize (composeStem [y1, y2, m1, m2, d1, d2] s desc)
      = composeStem [y1, y2, m1, m2, d1, d2] s desc := sanitize_eq_self hclean
  have hgrpP : composeStem [y1, y2, m1, m2, d1, d2] s desc
      = (y1 :: ([y2, m1, m2, d1, d2]
          ++ (oparenSep ++ (s ++ (cparenSep ++ (desc ++ closeTagFront)))))) ++ ['P'] := by
    simp [composeStem, closeTag, closeTagFront, suffixTag, List.append_assoc]
  have hstrip : pyStrip (composeStem [y1, y2, m1, m2, d1, d2] s desc)
      = composeStem [y1, y2, m1, m2, d1, d2] s desc := by
    rw [hgrpP, pyStrip_concatP (by decide), List.dropWhile_cons_of_neg]
    simp [digit_not_space hy1]
  have e1 : encodeStem ['2', '0', y1, y2, '-', m1, m2, '-', d1, d2] s desc
      = composeStem [y1, y2, m1, m2, d1, d2] s desc := by
    unfold encodeStem
    rw [hds, hsan, hstrip]
  have hsplit0 : composeStem [y1, y2, m1, m2, d1, d2] s desc
      = ([y1, y2, m1, m2, d1, d2]
          ++ (oparenSep ++ (s ++ (cparenSep ++ (desc ++ [')']))))) ++ suffixTag := by
    simp [composeStem, closeTag, List.append_assoc]
  have hstrip2 : stripTag (composeStem [y1, y2, m1, m2, d1, d2] s desc)
      = [y1, y2, m1, m2, d1, d2] ++ (oparenSep ++ (s ++ (cparenSep ++ (desc ++ [')'])))) := by
    rw [hsplit0, stripTag_append]
  have hfst : splitFirst oparenSep
      ([y1, y2, m1, m2, d1, d2] ++ (oparenSep ++ (s ++ (cparenSep ++ (desc ++ [')'])))))
      = some ([y1, y2, m1, m2, d1, d2], s ++ (cparenSep ++ (desc ++ [')']))) := by
    apply splitFirst_boundary _ _ _ (by decide)
    intro i hi
    have hi6 : i < 6 := by simpa using hi
    exact no_op_in_datestr hy1 hy2 hm1 hm2 hd1 hd2 _ i hi6
  have hsnd : splitFirst cparenSep (s ++ (cparenSep ++ (desc ++ [')'])))
      = some (s, desc ++ [')']) :=
    splitFirst_boundary _ _ _ (by decide) (no_cp_left s (desc ++ [')']) hsSep)
  rw [e1]
  unfold decodeStem
  simp only [hstrip2, hfst, hsnd]
  rw [dropLast_append_singleton]
  simp [mkDate, pySlice]

theorem c1_round_trip_20xx_witness :
    decodeStem (encodeStem ['2', '0', '2', '4', '-', '0', '3', '-', '0', '7']
        (("ACME s.r.o.").toList) (("Hosting").toList))
      = ⟨['2', '0', '2', '4', '-', '0', '3', '-', '0', '7'],
         ("ACME s.r.o.").toList, ("Hosting").toList⟩ :=
  c1_round_trip_20xx '2' '4' '0' '3' '0' '7'
    (by decide) (by decide) (by decide) (by decide) (by decide) (by decide)
    (("ACME s.r.o.").toList) (("Hosting").toList)
    (by decide) (by decide) (by decide) (by decide) (by decide) (by decide)

/-- C2 counterexample: two different malformed issue dates produce two
different stems, and neither matches the stem produced for an absent date
field, refuting the claim that every malformed date is replaced by one
fixed sentinel. -/
theorem c2_counterexample :
    isYYYYMMDD (("garbage").toList) = false ∧
    isYYYYMMDD (("nonsense").toList) = false ∧
    uploadStem (some (("garbage").toList)) (some (("A").toList)) (some (("B").toList))
      ≠ uploadStem (some (("nonsense").toList)) (some (("A").toList)) (some (("B").toList)) ∧
    uploadStem (some (("garbage").toList)) (some (("A").toList)) (some (("B").toList))
      ≠ uploadStem none (some (("A").toList)) (some (("B").toList)) := by
  decide

/-- C2 (amended): the upload flow never validates the date.  Only when the
`issue_date` field is absent does the fixed default `"0000-00-00"` apply, in
which case the stem begins with the sentinel date portion `"000000 ("`; a
present but malformed date is embedded after dash removal and dropping two
characters, so different malformed dates yield different stems. -/
theorem c2_absent_date_sentinel (s d : Option (List Char)) :
    ∃ r, uploadStem none s d = ['0', '0', '0', '0', '0', '0', ' ', '('] ++ r := by
  refine ⟨sanitize (pyStrip (s.getD defaultSupplier))
    ++ (cparenSep ++ (sanitize (pyStrip (d.getD defaultDescription)) ++ closeTag)), ?_⟩
  unfold uploadStem encodeStem
  have hds : (dropDashes ((none : Option (List Char)).getD defaultDate)).drop 2
      = ['0', '0', '0', '0', '0', '0'] := by decide
  rw [hds]
  have hsan : sanitize (composeStem ['0', '0', '0', '0', '0', '0']
        (pyStrip (s.getD defaultSupplier)) (pyStrip (d.getD defaultDescription)))
      = ['0', '0', '0', '0', '0', '0']
        ++ (oparenSep ++ (sanitize (pyStrip (s.getD defaultSupplier))
          ++ (cparenSep ++ (sanitize (pyStrip (d.getD defaultDescription)) ++ closeTag)))) := by
    simp only [composeStem, sanitize_append]
    rw [show sanitize ['0', '0', '0', '0', '0', '0'] = ['0', '0', '0', '0', '0', '0'] from
          by decide,
        show sanitize oparenSep = oparenSep from by decide,
        show sanitize cparenSep = cparenSep from by decide,
        show sanitize closeTag = closeTag from by decide]
  rw [hsan]
  have hgrp : ['0', '0', '0', '0', '0', '0']
        ++ (oparenSep ++ (sanitize (pyStrip (s.getD defaultSupplier))
          ++ (cparenSep ++ (sanitize (pyStrip (d.getD defaultDescription)) ++ closeTag))))
      = ('0' :: (['0', '0', '0', '0', '0']
          ++ (oparenSep ++ (sanitize (pyStrip (s.getD defaultSupplier))
            ++ (cparenSep ++ (sanitize (pyStrip (d.getD defaultDescription))
              ++ closeTagFront)))))) ++ ['P'] := by
    simp [closeTag, closeTagFront, suffixTag, List.append_assoc]
  rw [hgrp, pyStrip_concatP (by decide), List.dropWhile_cons_of_neg (by decide)]
  simp [oparenSep, closeTag, closeTagFront, suffixTag, List.append_assoc]

/-- C10: the new filename computed by edit is exactly the re-encoded,
sanitized, trimmed stem concatenated with the extension of the old
filename, and the three renamed artifacts (document, preview, sidecar) all
share the new stem. -/
theorem c10_edit_extension_and_stem (filename issue_date supplier description : List Char) :
    editNewFilename filename issue_date supplier description
        = encodeStem issue_date supplier description ++ (splitext filename).2 ∧
    (splitext (editRenamedArtifacts filename issue_date supplier description).1).1
        = editNewBase filename issue_date supplier description ∧
    (splitext (editRenamedArtifacts filename issue_date supplier description).2.1).1
        = editNewBase filename issue_date supplier description ∧
    (splitext (editRenamedArtifacts filename issue_date supplier description).2.2).1
        = editNewBase filename issue_date supplier description := by
  have hnb : ∃ c ∈ editNewBase filename issue_date supplier description,
      (c != '.') = true := by
    unfold editNewBase
    apply splitext_root_keeps_nondot
    obtain ⟨w, hw⟩ := encodeStem_ends_P issue_date supplier description
    refine ⟨'P', ?_, by decide⟩
    unfold editNewFilename
    rw [hw]
    simp
  refine ⟨rfl, rfl, ?_, ?_⟩
  · have hsp := splitext_append_ext
      (editNewBase filename issue_date supplier description) jpgTail hnb (by decide)
    show (splitext (editNewBase filename issue_date supplier description
      ++ ('.' :: jpgTail))).1 = editNewBase filename issue_date supplier description
    rw [hsp]
  · have hsp := splitext_append_ext
      (editNewBase filename issue_date supplier description) jsonTail hnb (by decide)
    show (splitext (editNewBase filename issue_date supplier description
      ++ ('.' :: jsonTail))).1 = editNewBase filename issue_date supplier description
    rw [hsp]

